import Mathlib

/-!
Verification of the btcscript engine (`script.go`) against its
natural-language specification.  The engine, parser, constructor and
sighash builder are translated from `src/script.go`; the opcode table,
opcode executors and stack/boolean codec live in `opcode.go`/`stack.go`,
which are not among the provided sources, and are modelled from the
spec where needed (each such definition says so in its doc comment).
Scripts are byte strings, modelled as `List Nat` with every byte below
256 where that matters.
-/

namespace BtcScript

/-- Error taxonomy of the engine, one constructor per distinct Go error
value produced by `script.go` (the `StackErr*` variables plus the ad-hoc
`fmt.Errorf`/`errors.New` values), with `panicOutOfRange` standing for a
Go runtime index/slice panic, `fuelExhausted` for the artificial
out-of-fuel result of the fuel-indexed loops (never reached when the
fuel is at least the needed step count) and `unmodelled` for opcode
executors outside the fragment this development models. -/
inductive Err where
  | shortScript
  | underflow
  | invalidArgs
  | opDisabled
  | verifyFailed
  | numberTooBig
  | invalidOpcode
  | reservedOpcode
  | earlyReturn
  | noIf
  | missingEndif
  | tooManyPubkeys
  | tooManyOperations
  | elementTooBig
  | scriptFailed
  | pastInputScripts
  | stackEmptyAtEnd
  | p2shNonPushOnly
  | invalidOpcodeLength
  | panicOutOfRange
  | fuelExhausted
  | unmodelled
  deriving DecidableEq, Repr

instance {ε α : Type} [DecidableEq ε] [DecidableEq α] : DecidableEq (Except ε α) := fun a b =>
  match a, b with
  | .error e, .error f => decidable_of_iff (e = f) (by simp)
  | .ok x, .ok y => decidable_of_iff (x = y) (by simp)
  | .error _, .ok _ => .isFalse (by simp)
  | .ok _, .error _ => .isFalse (by simp)

/-- Parsed opcode: the descriptor's byte value (`pop.opcode.value` in the
source, flattened into the structure here) together with the immediate
data sliced out of the script. -/
structure parsedOpcode where
  opvalue : Nat
  data : List Nat
  deriving DecidableEq, Repr

/-- Modelled from the spec: the encoded-length field of the 256-entry
opcode table built in `opcode.go` (not among the provided sources).
Per the spec's data model, OP_DATA_1..75 (values 1..75) have fixed
encoded length value+1 including the opcode byte, OP_PUSHDATA1/2/4
(values 76/77/78) carry a 1/2/4-byte little-endian length prefix
(encoded length -1, -2, -4), and every other opcode has encoded length 1
(no immediate data). -/
def opLength (v : Nat) : Int :=
  if 1 ≤ v ∧ v ≤ 75 then (v : Int) + 1
  else if v = 76 then -1
  else if v = 77 then -2
  else if v = 78 then -4
  else 1

/-- Translation of `scriptUInt8`: the number stored in the first byte of
a slice; errors with ShortScript when `len(script) <= 1`, i.e. when the
slice has fewer than two bytes. -/
def scriptUInt8 (script : List Nat) : Except Err Nat :=
  match script with
  | b0 :: _ :: _ => .ok b0
  | _ => .error .shortScript

/-- Translation of `scriptUInt16`: little-endian number from the first
two bytes; errors with ShortScript when `len(script) <= 2`. -/
def scriptUInt16 (script : List Nat) : Except Err Nat :=
  match script with
  | b0 :: b1 :: _ :: _ => .ok (b1 * 256 + b0)
  | _ => .error .shortScript

/-- Translation of `scriptUInt32`: little-endian number from the first
four bytes; errors with ShortScript when `len(script) <= 4`. -/
def scriptUInt32 (script : List Nat) : Except Err Nat :=
  match script with
  | b0 :: b1 :: b2 :: b3 :: _ :: _ =>
      .ok (b3 * 16777216 + b2 * 65536 + b1 * 256 + b0)
  | _ => .error .shortScript

/-- Maximum bytes pushable to the stack (`MaxScriptElementSize`). -/
def MaxScriptElementSize : Nat := 520

/-- Maximum number of non-push operations per script (`MaxOpsPerScript`). -/
def MaxOpsPerScript : Nat := 201

/-- Fuel-indexed body of `parseScript`.  The Go loop walks the byte
string with an index; here each iteration consumes the bytes of one
opcode and recurses on the remainder, with the fuel bounding the number
of iterations (one byte is consumed per iteration at minimum, so fuel
equal to the script length is always enough and `fuelExhausted` is
unreachable from `parseScript`). -/
def parseLoop : Nat → List Nat → Except Err (List parsedOpcode)
  | _, [] => .ok []
  | 0, _ :: _ => .error .fuelExhausted
  | fuel + 1, instr :: rest =>
    let L := opLength instr
    if L = 1 then
      match parseLoop fuel rest with
      | .error e => .error e
      | .ok pops => .ok (⟨instr, []⟩ :: pops)
    else if 1 < L then
      if (1 + rest.length : Int) < L then .error .shortScript
      else
        match parseLoop fuel (rest.drop (L.toNat - 1)) with
        | .error e => .error e
        | .ok pops => .ok (⟨instr, rest.take (L.toNat - 1)⟩ :: pops)
    else
      let lres : Except Err Nat :=
        if L = -1 then scriptUInt8 rest
        else if L = -2 then scriptUInt16 rest
        else if L = -4 then scriptUInt32 rest
        else .error .invalidOpcodeLength
      match lres with
      | .error e => .error e
      | .ok l =>
        let K := (-L).toNat
        if (rest.drop K).length < l then .error .shortScript
        else if MaxScriptElementSize < l then .error .elementTooBig
        else
          match parseLoop fuel ((rest.drop K).drop l) with
          | .error e => .error e
          | .ok pops => .ok (⟨instr, (rest.drop K).take l⟩ :: pops)

/-- Translation of `parseScript`: preparse the byte string into parsed
opcodes, applying the sanity checks of the source. -/
def parseScript (script : List Nat) : Except Err (List parsedOpcode) :=
  parseLoop script.length script

/-- Little-endian byte encoding of a number on `k` bytes. -/
def leBytes : Nat → Nat → List Nat
  | 0, _ => []
  | k + 1, n => n % 256 :: leBytes k (n / 256)

/-- Modelled from the spec: `parsedOpcode.bytes()` from `opcode.go` (not
among the provided sources).  Per the spec's unparser, an opcode of
encoded length 1 emits just its byte value, a fixed-length opcode emits
its value followed by its immediate data, and a length-prefixed opcode
emits its value, the little-endian length of the data on 1/2/4 bytes,
then the data. -/
def popBytes (pop : parsedOpcode) : List Nat :=
  let L := opLength pop.opvalue
  if L = 1 then [pop.opvalue]
  else if 1 < L then pop.opvalue :: pop.data
  else if L = -1 then pop.opvalue :: (leBytes 1 pop.data.length ++ pop.data)
  else if L = -2 then pop.opvalue :: (leBytes 2 pop.data.length ++ pop.data)
  else if L = -4 then pop.opvalue :: (leBytes 4 pop.data.length ++ pop.data)
  else [pop.opvalue]

/-- Translation of `unparseScript`: concatenate the byte renderings of
the parsed opcodes in order. -/
def unparseScript : List parsedOpcode → List Nat
  | [] => []
  | pop :: rest => popBytes pop ++ unparseScript rest

/-- Modelled from the spec: the tri-state conditional-execution marks
used by the engine (`OpCondFalse`/`OpCondTrue`/`OpCondSkip` from
`opcode.go`, not among the provided sources). -/
inductive CondVal where
  | opCondFalse
  | opCondTrue
  | opCondSkip
  deriving DecidableEq, Repr

/-- Transaction input, the fields of `btcwire.TxIn` the engine touches
(signature script and sequence number). -/
structure TxIn where
  SignatureScript : List Nat
  Sequence : Nat
  deriving DecidableEq, Repr

/-- Transaction output, the fields of `btcwire.TxOut` the engine touches
(value and pubkey script). -/
structure TxOut where
  Value : Int
  PkScript : List Nat
  deriving DecidableEq, Repr

/-- Spending transaction, the fields of `btcwire.MsgTx` the engine
touches.  `btcwire` is an external collaborator; its `Copy` is a deep
clone per the spec, so value semantics model it exactly. -/
structure MsgTx where
  Version : Nat
  TxIn : List TxIn
  TxOut : List TxOut
  LockTime : Nat
  deriving DecidableEq, Repr

/-- Engine state, translation of the `Script` struct.  The data and alt
stacks are lists of byte strings with the head as the top element (the
Go `Stack` keeps the top at the end of its slice; `GetStack` returns the
bottom-up array, i.e. the reverse of this list).  `savedFirstStack`
keeps the Go bottom-up array order. -/
structure Script where
  scripts : List (List parsedOpcode)
  scriptidx : Nat
  scriptoff : Nat
  lastcodesep : Nat
  dstack : List (List Nat)
  astack : List (List Nat)
  tx : MsgTx
  txidx : Nat
  pver : Nat
  condStack : List CondVal
  numOps : Nat
  bip16 : Bool
  savedFirstStack : List (List Nat)
  deriving DecidableEq, Repr

/-- Modelled from the spec: boolean interpretation of a stack element
(`asBool` in `stack.go`, not among the provided sources).  False is the
empty string or any string whose bytes are all zero except possibly a
trailing 0x80 (negative zero); true is anything else. -/
def asBool : List Nat → Bool
  | [] => false
  | b :: rest =>
    if b ≠ 0 then (if rest = [] ∧ b = 128 then false else true)
    else asBool rest

/-- Modelled from the spec: the fifteen always-fail (disabled) opcodes
OP_CAT, OP_SUBSTR, OP_LEFT, OP_RIGHT, OP_INVERT, OP_AND, OP_OR, OP_XOR,
OP_2MUL, OP_2DIV, OP_MUL, OP_DIV, OP_MOD, OP_LSHIFT, OP_RSHIFT
(`disabled()` in `opcode.go`, not among the provided sources). -/
def disabledOp (v : Nat) : Bool :=
  v == 126 || v == 127 || v == 128 || v == 129 ||
  v == 131 || v == 132 || v == 133 || v == 134 ||
  v == 141 || v == 142 ||
  v == 149 || v == 150 || v == 151 || v == 152 || v == 153

/-- Modelled from the spec: OP_VERIF and OP_VERNOTIF are always-illegal
(`alwaysIllegal()` in `opcode.go`, not among the provided sources). -/
def alwaysIllegalOp (v : Nat) : Bool :=
  v == 101 || v == 102

/-- Modelled from the spec: the conditional flag of the opcode table is
true exactly for the four flow-control opcodes OP_IF, OP_NOTIF, OP_ELSE,
OP_ENDIF (`conditional()` in `opcode.go`, not among the provided
sources). -/
def conditionalOp (v : Nat) : Bool :=
  v == 99 || v == 100 || v == 103 || v == 104

/-- Push a byte string onto the data stack (head is the top). -/
def pushData (d : List Nat) (m : Script) : Script :=
  { m with dstack := d :: m.dstack }

/-- Modelled from the spec: OP_IF pops a boolean and pushes
True or False onto the conditional stack, except that under a
non-executing enclosing mark it pushes Skip without popping. -/
def opcodeIf (m : Script) : Except Err Script :=
  match m.condStack with
  | [] => .error .panicOutOfRange
  | c :: _ =>
    if c ≠ CondVal.opCondTrue then
      .ok { m with condStack := CondVal.opCondSkip :: m.condStack }
    else
      match m.dstack with
      | [] => .error .underflow
      | top :: rest =>
        let c' := if asBool top then CondVal.opCondTrue else CondVal.opCondFalse
        .ok { m with dstack := rest, condStack := c' :: m.condStack }

/-- Modelled from the spec: OP_NOTIF, as OP_IF with the popped boolean
inverted. -/
def opcodeNotIf (m : Script) : Except Err Script :=
  match m.condStack with
  | [] => .error .panicOutOfRange
  | c :: _ =>
    if c ≠ CondVal.opCondTrue then
      .ok { m with condStack := CondVal.opCondSkip :: m.condStack }
    else
      match m.dstack with
      | [] => .error .underflow
      | top :: rest =>
        let c' := if asBool top then CondVal.opCondFalse else CondVal.opCondTrue
        .ok { m with dstack := rest, condStack := c' :: m.condStack }

/-- Modelled from the spec: OP_ELSE flips True and False of the
innermost mark (Skip stays Skip) and errors with NoIf when no pushed
conditional is open (only the initial mark is on the stack). -/
def opcodeElse (m : Script) : Except Err Script :=
  if m.condStack.length < 2 then .error .noIf
  else
    match m.condStack with
    | [] => .error .noIf
    | c :: rest =>
      let c' := match c with
        | CondVal.opCondTrue => CondVal.opCondFalse
        | CondVal.opCondFalse => CondVal.opCondTrue
        | CondVal.opCondSkip => CondVal.opCondSkip
      .ok { m with condStack := c' :: rest }

/-- Modelled from the spec: OP_ENDIF pops the innermost mark and errors
with NoIf when no pushed conditional is open. -/
def opcodeEndif (m : Script) : Except Err Script :=
  if m.condStack.length < 2 then .error .noIf
  else .ok { m with condStack := m.condStack.tail }

/-- Modelled from the spec: OP_VERIFY pops a boolean and fails with
VerifyFailed when it is false. -/
def opcodeVerify (m : Script) : Except Err Script :=
  match m.dstack with
  | [] => .error .underflow
  | top :: rest =>
    if asBool top then .ok { m with dstack := rest }
    else .error .verifyFailed

/-- Modelled from the spec: the executor functions of the opcode table
(`opfunc` entries in `opcode.go`, not among the provided sources), for
the fragment of the table this development uses: the constant and data
pushes, OP_1NEGATE, OP_1..OP_16, the flow-control quartet, OP_NOP(1-10),
OP_VERIFY, OP_RETURN, and the reserved opcodes.  Executors outside this
fragment answer `unmodelled`. -/
def opfunc (pop : parsedOpcode) (m : Script) : Except Err Script :=
  let v := pop.opvalue
  if v = 0 then .ok (pushData [] m)
  else if 1 ≤ v ∧ v ≤ 78 then .ok (pushData pop.data m)
  else if v = 79 then .ok (pushData [129] m)
  else if v = 80 then .error .reservedOpcode
  else if 81 ≤ v ∧ v ≤ 96 then .ok (pushData [v - 80] m)
  else if v = 97 then .ok m
  else if v = 98 then .error .reservedOpcode
  else if v = 99 then opcodeIf m
  else if v = 100 then opcodeNotIf m
  else if v = 101 ∨ v = 102 then .error .reservedOpcode
  else if v = 103 then opcodeElse m
  else if v = 104 then opcodeEndif m
  else if v = 105 then opcodeVerify m
  else if v = 106 then .error .earlyReturn
  else if v = 137 ∨ v = 138 then .error .reservedOpcode
  else if 176 ≤ v ∧ v ≤ 185 then .ok m
  else .error .unmodelled

/-- Modelled from the spec: `parsedOpcode.exec` from `opcode.go` (not
among the provided sources).  Disabled opcodes fail with OpDisabled and
OP_VERIF/OP_VERNOTIF with ReservedOpcode whenever executed; every
executed opcode with value strictly greater than OP_16 (96) increments
the non-push operation counter, failing with TooManyOperations past
MaxOpsPerScript; then the opcode's executor runs. -/
def exec (pop : parsedOpcode) (m : Script) : Except Err Script :=
  if disabledOp pop.opvalue then .error .opDisabled
  else if alwaysIllegalOp pop.opvalue then .error .reservedOpcode
  else if 96 < pop.opvalue then
    let n := m.numOps + 1
    if MaxOpsPerScript < n then .error .tooManyOperations
    else opfunc pop { m with numOps := n }
  else opfunc pop m

/-- Translation of `validPC`: error unless the program counter points at
an opcode of an existing script (both out-of-range conditions produce
"Past input scripts" errors in the source). -/
def validPC (m : Script) : Except Err Unit :=
  if m.scripts.length ≤ m.scriptidx then .error .pastInputScripts
  else if ((m.scripts.get? m.scriptidx).getD []).length ≤ m.scriptoff then .error .pastInputScripts
  else .ok ()

/-- Translation of the end-of-script block of `Step` (run after the
opcode offset has been reset to 0): in P2SH mode, stepping off script 0
snapshots the data stack bottom-up, and stepping off script 1 pops the
top as a boolean (failing with ScriptFailed when false), parses the
saved top element as script index 2 and restores the saved stack minus
that element. -/
def stepFinishScript (m : Script) : Except Err Script :=
  if m.scriptidx = 0 ∧ m.bip16 = true then
    .ok { m with savedFirstStack := m.dstack.reverse }
  else if m.scriptidx = 1 ∧ m.bip16 = true then
    match m.dstack with
    | [] => .error .underflow
    | top :: _ =>
      if asBool top = false then .error .scriptFailed
      else
        match m.savedFirstStack.getLast? with
        | none => .error .panicOutOfRange
        | some script =>
          match parseScript script with
          | .error e => .error e
          | .ok pops =>
            .ok { m with scripts := m.scripts ++ [pops],
                         dstack := m.savedFirstStack.dropLast.reverse }
  else .ok m

/-- Translation of the program-counter advance at the end of `Step`:
move to the next opcode; at end of script move to the next script
(skipping one zero-length script) and reset the last-codesep offset,
reporting done when no script remains. -/
def stepAdvance (m : Script) : Except Err (Bool × Script) :=
  let off' := m.scriptoff + 1
  if ((m.scripts.get? m.scriptidx).getD []).length ≤ off' then
    match stepFinishScript { m with scriptoff := 0 } with
    | .error e => .error e
    | .ok m4 =>
      let m5 := { m4 with scriptidx := m4.scriptidx + 1 }
      let m6 :=
        if m5.scriptidx < m5.scripts.length ∧
            ((m5.scripts.get? m5.scriptidx).getD []).length ≤ m5.scriptoff then
          { m5 with scriptidx := m5.scriptidx + 1 }
        else m5
      let m7 := { m6 with lastcodesep := 0 }
      .ok (m7.scripts.length ≤ m7.scriptidx, m7)
  else .ok (false, { m with scriptoff := off' })

/-- Translation of `Step`: validate the program counter, fetch the
current parsed opcode, execute it unless the innermost conditional mark
is non-True and the opcode is not flagged conditional, then advance. -/
def Step (m : Script) : Except Err (Bool × Script) :=
  match validPC m with
  | .error e => .error e
  | .ok _ =>
    match (m.scripts.get? m.scriptidx).bind (fun s => s.get? m.scriptoff) with
    | none => .error .panicOutOfRange
    | some opcode =>
      match m.condStack with
      | [] => .error .panicOutOfRange
      | c :: _ =>
        let executeInstr :=
          if c == CondVal.opCondTrue then true else conditionalOp opcode.opvalue
        match (if executeInstr then exec opcode m else .ok m) with
        | .error e => .error e
        | .ok m1 => stepAdvance m1

/-- Fuel-indexed body of `Execute`'s stepping loop.  Each successful
non-done `Step` executes (or skips) exactly one opcode, so fuel
exceeding the total opcode count of all scripts (plus the at most
520 opcodes of a script appended by the P2SH transition) makes
`fuelExhausted` unreachable. -/
def executeLoop : Nat → Script → Except Err Script
  | 0, _ => .error .fuelExhausted
  | fuel + 1, m =>
    match Step m with
    | .error e => .error e
    | .ok (done, m') => if done then .ok m' else executeLoop fuel m'

/-- Translation of the termination checks at the end of `Execute`:
require data-stack depth at least 1, pop the top as a boolean failing
with ScriptFailed when false, then require the conditional stack to hold
exactly the initial mark, else MissingEndif. -/
def executeFinish (m : Script) : Except Err Unit :=
  if m.dstack.length < 1 then .error .stackEmptyAtEnd
  else
    match m.dstack with
    | [] => .error .stackEmptyAtEnd
    | top :: _ =>
      if asBool top = false then .error .scriptFailed
      else if m.condStack.length ≠ 1 then .error .missingEndif
      else .ok ()

/-- Fuel bound for `Execute`: total opcode count plus room for the
appended P2SH script. -/
def scriptsFuel (m : Script) : Nat :=
  m.scripts.foldl (fun a s => a + s.length) 0 + MaxScriptElementSize + 600

/-- Translation of `Execute`: step until done (or error), then apply the
termination checks. -/
def Execute (m : Script) : Except Err Unit :=
  match executeLoop (scriptsFuel m) m with
  | .error e => .error e
  | .ok m' => executeFinish m'

/-- Translation of `isScriptHash`: the parsed script is exactly
OP_HASH160 (169), OP_DATA_20 (20), OP_EQUAL (135). -/
def isScriptHash (pops : List parsedOpcode) : Bool :=
  match pops with
  | [p0, p1, p2] => p0.opvalue == 169 && p1.opvalue == 20 && p2.opvalue == 135
  | _ => false

/-- Translation of `isPushOnly`: every opcode value is in the push range
up to OP_16 (96); the source also compares against OP_FALSE (0) from
below, which a byte value can never fail. -/
def isPushOnly (pops : List parsedOpcode) : Bool :=
  pops.all (fun pop => !(96 < pop.opvalue))

/-- Blank every input's signature script, the in-place loop `NewScript`
runs on the caller's transaction. -/
def blankInputs (tx : MsgTx) : MsgTx :=
  { tx with TxIn := tx.TxIn.map (fun ti => { ti with SignatureScript := [] }) }

/-- Translation of `NewScript`.  Returns the construction result paired
with the state of the caller's transaction after the call: the Go code
receives the transaction by pointer and blanks every input's signature
script in place before storing a (shallow) copy, so the caller observes
the blanked transaction whenever construction reaches that loop (i.e. on
every success path). -/
def NewScript (scriptSig scriptPubKey : List Nat) (txidx : Nat) (tx : MsgTx)
    (pver : Nat) (bip16 : Bool) : Except Err Script × MsgTx :=
  match parseScript scriptSig with
  | .error e => (.error e, tx)
  | .ok sigPops =>
    match parseScript scriptPubKey with
    | .error e => (.error e, tx)
    | .ok pkPops =>
      let idx0 := if scriptSig.length = 0 then 1 else 0
      let scriptidx := if scriptPubKey.length = 0 then 2 else idx0
      if bip16 && isScriptHash pkPops && !isPushOnly sigPops then
        (.error .p2shNonPushOnly, tx)
      else
        (.ok { scripts := [sigPops, pkPops]
             , scriptidx := scriptidx
             , scriptoff := 0
             , lastcodesep := 0
             , dstack := []
             , astack := []
             , tx := blankInputs tx
             , txidx := txidx
             , pver := pver
             , condStack := [CondVal.opCondTrue]
             , numOps := 0
             , bip16 := bip16 && isScriptHash pkPops
             , savedFirstStack := [] }, blankInputs tx)

/-- Construct the engine with `NewScript` and run `Execute`, the
end-to-end pipeline of the spec's literal-input scenarios. -/
def runScripts (scriptSig scriptPubKey : List Nat) (txidx : Nat) (tx : MsgTx)
    (pver : Nat) (bip16 : Bool) : Except Err Unit :=
  match (NewScript scriptSig scriptPubKey txidx tx pver bip16).1 with
  | .error e => .error e
  | .ok m => Execute m

/-- Transaction with no inputs and no outputs, used by the concrete
scenario runs. -/
def emptyTx : MsgTx := { Version := 1, TxIn := [], TxOut := [], LockTime := 0 }

example : runScripts [81] [81] 0 emptyTx 0 false = .ok () := by decide
example : runScripts [0] [99, 126, 104] 0 emptyTx 0 false = .error .stackEmptyAtEnd := by decide
example : runScripts [81, 81] [99] 0 emptyTx 0 false = .error .missingEndif := by decide
example : runScripts [81] [126] 0 emptyTx 0 false = .error .opDisabled := by decide
example : runScripts [81] [106] 0 emptyTx 0 false = .error .earlyReturn := by decide

/-- Translation of `removeOpcode`: drop every parsed opcode whose value
matches. -/
def removeOpcode : List parsedOpcode → Nat → List parsedOpcode
  | [], _ => []
  | pop :: rest, opv =>
    if pop.opvalue ≠ opv then pop :: removeOpcode rest opv
    else removeOpcode rest opv

/-- Translation of `removeOpcodeByData`: drop every parsed opcode whose
immediate data equals the given byte string (`bytes.Equal`, under which
a nil and an empty slice coincide, is plain list equality here). -/
def removeOpcodeByData : List parsedOpcode → List Nat → List parsedOpcode
  | [], _ => []
  | pop :: rest, data =>
    if pop.data ≠ data then pop :: removeOpcodeByData rest data
    else removeOpcodeByData rest data

/-- First input-rewriting loop of `calcScriptHash`: input `txidx` gets
the unparsed subscript as signature script, every other input an empty
one.  The `i` argument is the running index of the Go range loop. -/
def setInputScriptsFrom (txidx : Nat) (sub : List Nat) : Nat → List TxIn → List TxIn
  | _, [] => []
  | i, ti :: rest =>
    (if i = txidx then { ti with SignatureScript := sub }
     else { ti with SignatureScript := [] }) :: setInputScriptsFrom txidx sub (i + 1) rest

/-- Sequence-zeroing loop of the None and Single modes of
`calcScriptHash`: every input other than `txidx` gets sequence 0. -/
def zeroOtherSeqFrom (txidx : Nat) : Nat → List TxIn → List TxIn
  | _, [] => []
  | i, ti :: rest =>
    (if i ≠ txidx then { ti with Sequence := 0 } else ti) :: zeroOtherSeqFrom txidx (i + 1) rest

/-- Output-zeroing loop of the Single mode of `calcScriptHash`: every
output with index below `txidx` gets value -1 and an empty pubkey
script. -/
def zeroOutputsBelowFrom (txidx : Nat) : Nat → List TxOut → List TxOut
  | _, [] => []
  | i, o :: rest =>
    (if i < txidx then { Value := -1, PkScript := [] } else o) :: zeroOutputsBelowFrom txidx (i + 1) rest

/-- Translation of `calcScriptHash` up to (not including) the wire
serialization and double-SHA256, which are external collaborators: the
transformed transaction copy that gets serialized and hashed.
`s.tx.Copy()` is a deep clone (external `btcwire`), so value semantics
model it exactly, and the per-element copy loops of the source are
identities here.  `none` models a Go slice-bounds panic: the Single mode
truncates the output vector to `txidx+1` entries, and the
AnyOneCanPay mode slices a single input, either of which panics when
fewer entries exist. -/
def calcScriptHashTx (s : Script) (script : List parsedOpcode) (hashType : Nat) : Option MsgTx :=
  let script2 := removeOpcode script 171
  let txidx := s.txidx
  let txCopy := { s.tx with TxIn := setInputScriptsFrom txidx (unparseScript script2) 0 s.tx.TxIn }
  let step3 : Option MsgTx :=
    match hashType &&& 31 with
    | 2 => some { txCopy with TxOut := [],
                              TxIn := zeroOtherSeqFrom txidx 0 txCopy.TxIn }
    | 3 =>
      if txCopy.TxOut.length < txidx + 1 then none
      else some { txCopy with
                    TxOut := zeroOutputsBelowFrom txidx 0 (txCopy.TxOut.take (txidx + 1)),
                    TxIn := zeroOtherSeqFrom txidx 0 txCopy.TxIn }
    | _ => some txCopy
  match step3 with
  | none => none
  | some t =>
    if hashType &&& 128 ≠ 0 then
      if t.TxIn.length < s.txidx + 1 then none
      else some { t with TxIn := (t.TxIn.drop s.txidx).take 1 }
    else some t

/-- `calcScriptHash` as a state-passing function: the transformed
transaction copy paired with the engine after the call.  Every write in
the source lands on the local copy `txCopy` (or local loop variables),
never on the engine, so the engine component is `s` itself. -/
def calcScriptHashFull (s : Script) (script : List parsedOpcode) (hashType : Nat) :
    Option MsgTx × Script :=
  (calcScriptHashTx s script hashType, s)

example : parseScript [81] = .ok [⟨81, []⟩] := by decide
example : parseScript [76, 1, 170] = .ok [⟨76, [170]⟩] := by decide
example : parseScript [2, 7, 9] = .ok [⟨2, [7, 9]⟩] := by decide
example : parseScript [2, 7] = .error .shortScript := by decide
example : unparseScript [⟨76, [170]⟩] = [76, 1, 170] := by decide

/-- Transaction with a single input carrying a nonempty signature
script, used to exhibit the in-place mutation done by `NewScript`. -/
def oneInputTx : MsgTx :=
  { Version := 1
  , TxIn := [{ SignatureScript := [1], Sequence := 5 }]
  , TxOut := []
  , LockTime := 0 }

/-- Machine state whose current opcode is the disabled OP_CAT, with the
innermost conditional mark True; also reused as a concrete engine for
the sighash witnesses (its transaction has no outputs). -/
def disabledStepMachine : Script :=
  { scripts := [[⟨126, []⟩]], scriptidx := 0, scriptoff := 0, lastcodesep := 0
  , dstack := [], astack := [], tx := emptyTx, txidx := 0, pver := 0
  , condStack := [CondVal.opCondTrue], numOps := 0, bip16 := false
  , savedFirstStack := [] }

/-- Transaction with two inputs and one output, used by the sighash
witnesses. -/
def twoInputTx : MsgTx :=
  { Version := 1
  , TxIn := [ { SignatureScript := [7], Sequence := 9 }
            , { SignatureScript := [8], Sequence := 11 } ]
  , TxOut := [ { Value := 5, PkScript := [1] } ]
  , LockTime := 0 }

/-- Engine holding `twoInputTx` at input index 0, used by the sighash
witnesses. -/
def sighashMachine : Script :=
  { scripts := [[], []], scriptidx := 0, scriptoff := 0, lastcodesep := 0
  , dstack := [], astack := [], tx := twoInputTx, txidx := 0, pver := 0
  , condStack := [CondVal.opCondTrue], numOps := 0, bip16 := false
  , savedFirstStack := [] }

/-- Little-endian value of a byte string: each byte weighted by the
power of 256 of its position (the reading done by `scriptUInt8`,
`scriptUInt16` and `scriptUInt32` on their prefixes). -/
def leVal : List Nat → Nat
  | [] => 0
  | b :: rest => b + 256 * leVal rest

/-- C1.  The spec says sigScript = `51` (OP_1) with an empty pubkey
script executes successfully.  The code disagrees: the constructor's
empty-script loop fires on the trailing empty pubkey script even though
the signature script is nonempty — contradicting its own comment, which
speaks of skipping leading empty scripts — and leaves the program
counter past both scripts, so the first `Step` fails with the "Past
input scripts" error. -/
theorem runScripts_true_literal_empty_pk_fails :
    runScripts [81] [] 0 emptyTx 0 false = .error .pastInputScripts := by decide

/-- C7 counterexample.  For sigScript = `51`, pkScript = `63` (OP_IF),
Execute does not return MissingEndif, contrary to the claim. -/
theorem unbalanced_if_not_missing_endif :
    ¬ (runScripts [81] [99] 0 emptyTx 0 false = .error .missingEndif) := by decide

/-- C7 amended.  For sigScript = `51`, pkScript = `63` (OP_IF), Execute
fails, but with the empty-stack termination error: OP_IF consumes the
value OP_1 pushed, so the data stack is empty at the end of execution
and that check fires before the conditional-stack (MissingEndif)
check. -/
theorem unbalanced_if_stack_empty_error :
    runScripts [81] [99] 0 emptyTx 0 false = .error .stackEmptyAtEnd := by decide

/-- C10.  `removeOpcodeByData` filters on the immediate-data field
alone: it removes exactly the parsed opcodes whose data equals the given
byte string, keeping every other one — in particular, with the empty
byte string it removes every opcode that carries no immediate data,
push or not. -/
theorem removeOpcodeByData_filters_on_data (pks : List parsedOpcode) (data : List Nat) :
    removeOpcodeByData pks data = pks.filter (fun pop => decide (pop.data ≠ data)) := by
  induction pks with
  | nil => rfl
  | cons pop rest ih =>
    by_cases h : pop.data = data <;>
      simp [removeOpcodeByData, List.filter_cons, h, ih]

/-- C3 counterexample.  `NewScript` does not leave the caller's
transaction unchanged: for a transaction with one input whose signature
script is the single byte 0x01, the caller's transaction after the call
(second component of the model's return value, reflecting the in-place
writes through the passed pointer) differs from the original. -/
theorem newScript_mutates_caller_tx :
    (NewScript [] [] 0 oneInputTx 0 false).2 ≠ oneInputTx := by decide

/-- C3 amended.  On every success path, `NewScript` blanks all input
signature scripts of the caller's transaction in place, and the engine
stores that blanked transaction; the caller's transaction is therefore
changed whenever any of its inputs had a nonempty signature script. -/
theorem newScript_blanks_caller_inputs (scriptSig scriptPubKey : List Nat) (txidx : Nat)
    (tx : MsgTx) (pver : Nat) (bip16 : Bool) (m : Script)
    (h : (NewScript scriptSig scriptPubKey txidx tx pver bip16).1 = .ok m) :
    (NewScript scriptSig scriptPubKey txidx tx pver bip16).2 = blankInputs tx ∧
      m.tx = blankInputs tx := by
  unfold NewScript at h ⊢
  cases hp1 : parseScript scriptSig with
  | error e => rw [hp1] at h; dsimp only at h; cases h
  | ok sigPops =>
    cases hp2 : parseScript scriptPubKey with
    | error e => rw [hp1, hp2] at h; dsimp only at h; cases h
    | ok pkPops =>
      rw [hp1, hp2] at h
      dsimp only at h ⊢
      by_cases hc : (bip16 && isScriptHash pkPops && !isPushOnly sigPops) = true
      · rw [if_pos hc] at h; cases h
      · rw [if_neg hc] at h ⊢
        refine ⟨rfl, ?_⟩
        cases h
        rfl

/-- C3 amended, witness: the amended theorem applied to the concrete
one-input transaction. -/
theorem newScript_blanks_caller_inputs_witness :
    (NewScript [] [] 0 oneInputTx 0 false).2 = blankInputs oneInputTx ∧
      ({ scripts := [[], []], scriptidx := 2, scriptoff := 0, lastcodesep := 0
       , dstack := [], astack := [], tx := blankInputs oneInputTx, txidx := 0
       , pver := 0, condStack := [CondVal.opCondTrue], numOps := 0, bip16 := false
       , savedFirstStack := [] } : Script).tx = blankInputs oneInputTx :=
  newScript_blanks_caller_inputs [] [] 0 oneInputTx 0 false _ (by decide)

/-- C6.  P2SH gating at construction: when the p2shEnabled flag is set
and the parsed pubkey script is exactly the pattern OP_HASH160,
20-byte push, OP_EQUAL, `NewScript` errors exactly when the signature
script contains an opcode outside the push range (above OP_16; a byte
value cannot fall below OP_0), and otherwise succeeds with the engine in
P2SH mode. -/
theorem p2sh_gating (scriptSig scriptPubKey : List Nat) (txidx : Nat) (tx : MsgTx) (pver : Nat)
    (sigPops pkPops : List parsedOpcode)
    (hsig : parseScript scriptSig = .ok sigPops)
    (hpk : parseScript scriptPubKey = .ok pkPops)
    (hpat : isScriptHash pkPops = true) :
    (isPushOnly sigPops = false →
      (NewScript scriptSig scriptPubKey txidx tx pver true).1 = .error .p2shNonPushOnly) ∧
    (isPushOnly sigPops = true →
      ∃ m, (NewScript scriptSig scriptPubKey txidx tx pver true).1 = .ok m ∧ m.bip16 = true) := by
  unfold NewScript
  rw [hsig, hpk]
  dsimp only
  constructor
  · intro hpush
    rw [if_pos (by simp [hpat, hpush])]
  · intro hpush
    rw [if_neg (by simp [hpat, hpush])]
    exact ⟨_, rfl, by simp [hpat]⟩

/-- C6 witness: the gating theorem applied to sigScript = `51` and the
concrete P2SH pubkey script `a9 14 00..00 87`. -/
theorem p2sh_gating_witness :
    ∃ m, (NewScript [81] (169 :: 20 :: (List.replicate 20 0 ++ [135])) 0 emptyTx 0 true).1
        = .ok m ∧ m.bip16 = true :=
  (p2sh_gating [81] (169 :: 20 :: (List.replicate 20 0 ++ [135])) 0 emptyTx 0
    [⟨81, []⟩] [⟨169, []⟩, ⟨20, List.replicate 20 0⟩, ⟨135, []⟩]
    (by decide) (by decide) (by decide)).2 (by decide)

/-- C2 counterexample.  With sigScript = `00` and pkScript = `63 7e 68`
(OP_IF, OP_CAT, OP_ENDIF), Execute does not return OpDisabled, contrary
to the claim: the skipped OP_CAT never reaches `exec`, because `Step`
consults only the conditional flag (true exactly for the IF, NOTIF,
ELSE, ENDIF quartet) on a non-executing branch. -/
theorem disabled_skipped_branch_not_opdisabled :
    ¬ (runScripts [0] [99, 126, 104] 0 emptyTx 0 false = .error .opDisabled) := by decide

/-- C2 amended.  A disabled opcode fails with OpDisabled whenever it is
actually reached for execution, i.e. whenever the innermost conditional
mark is True: `Step` at a valid program counter pointing to any of the
fifteen disabled opcodes returns OpDisabled.  On a non-executing branch
(mark False or Skip) the opcode is skipped like any other non-conditional
opcode; the claim's own literal input instead fails with the empty-stack
termination error. -/
theorem step_disabled_executed_opdisabled (m : Script) (s : List parsedOpcode)
    (pop : parsedOpcode)
    (hs : m.scripts.get? m.scriptidx = some s)
    (hp : s.get? m.scriptoff = some pop)
    (hd : disabledOp pop.opvalue = true)
    (hc : m.condStack.head? = some CondVal.opCondTrue) :
    Step m = .error .opDisabled := by
  obtain ⟨t, ht⟩ : ∃ t, m.condStack = CondVal.opCondTrue :: t := by
    cases hcs : m.condStack with
    | nil => rw [hcs] at hc; cases hc
    | cons a t =>
      rw [hcs] at hc
      simp only [List.head?_cons, Option.some.injEq] at hc
      exact ⟨t, by rw [hc]⟩
  have hlen1 : m.scriptidx < m.scripts.length := by
    by_contra hcon
    push_neg at hcon
    rw [List.get?_eq_none.2 hcon] at hs
    cases hs
  have hlen2 : m.scriptoff < s.length := by
    by_contra hcon
    push_neg at hcon
    rw [List.get?_eq_none.2 hcon] at hp
    cases hp
  have hv : validPC m = .ok () := by
    unfold validPC
    rw [hs]
    simp only [Option.getD_some]
    rw [if_neg (by omega), if_neg (by omega)]
  unfold Step
  rw [hv, hs]
  simp only [Option.some_bind]
  rw [hp, ht]
  dsimp only
  simp only [beq_self_eq_true, if_true]
  unfold exec
  rw [if_pos hd]

/-- C2 witness: the amended theorem applied to a machine whose current
opcode is OP_CAT under a True innermost mark. -/
theorem step_disabled_executed_opdisabled_witness :
    Step disabledStepMachine = .error .opDisabled :=
  step_disabled_executed_opdisabled disabledStepMachine [⟨126, []⟩] ⟨126, []⟩
    (by decide) (by decide) (by decide) (by decide)

/-- C9.  `calcScriptHash` is not total in Single mode: when
(hashType and 0x1F) = 3 and the engine's input index plus one exceeds
the number of transaction outputs, the output-truncation slice is out of
range and the function aborts (modelled as `none`) instead of producing
a transformed transaction. -/
theorem calcScriptHash_single_out_of_range (s : Script) (script : List parsedOpcode)
    (hashType : Nat)
    (hmode : hashType &&& 31 = 3) (hout : s.tx.TxOut.length < s.txidx + 1) :
    calcScriptHashTx s script hashType = none := by
  unfold calcScriptHashTx
  rw [hmode]
  simp [hout]

/-- C9 witness: the abort theorem applied to an engine whose transaction
has no outputs, at input index 0 with hashType 3. -/
theorem calcScriptHash_single_out_of_range_witness :
    calcScriptHashTx disabledStepMachine [] 3 = none :=
  calcScriptHash_single_out_of_range disabledStepMachine [] 3 (by decide) (by decide)

lemma setInputScriptsFrom_get? (txidx : Nat) (sub : List Nat) :
    ∀ (l : List TxIn) (start j : Nat),
      (setInputScriptsFrom txidx sub start l).get? j =
        (l.get? j).map (fun ti =>
          if start + j = txidx then { ti with SignatureScript := sub }
          else { ti with SignatureScript := [] }) := by
  intro l
  induction l with
  | nil => intro start j; simp [setInputScriptsFrom]
  | cons ti rest ih =>
    intro start j
    cases j with
    | zero => simp [setInputScriptsFrom]
    | succ j =>
      simp only [setInputScriptsFrom, List.get?_cons_succ]
      rw [ih (start + 1) j]
      have hh : start + 1 + j = start + (j + 1) := by omega
      rw [hh]

lemma zeroOtherSeqFrom_get? (txidx : Nat) :
    ∀ (l : List TxIn) (start j : Nat),
      (zeroOtherSeqFrom txidx start l).get? j =
        (l.get? j).map (fun ti =>
          if start + j ≠ txidx then { ti with Sequence := 0 } else ti) := by
  intro l
  induction l with
  | nil => intro start j; simp [zeroOtherSeqFrom]
  | cons ti rest ih =>
    intro start j
    cases j with
    | zero => simp [zeroOtherSeqFrom]
    | succ j =>
      simp only [zeroOtherSeqFrom, List.get?_cons_succ]
      rw [ih (start + 1) j]
      have hh : start + 1 + j = start + (j + 1) := by omega
      rw [hh]

/-- C8.  In None mode (hashType and 0x1F = 2, without the AnyOneCanPay
bit), `calcScriptHash` hashes a transaction copy whose output vector is
empty, in which every input other than the engine's index has sequence
number 0 and an empty signature script, and whose input at the engine's
index carries the unparsed subscript (code-separators removed) as
signature script; the engine state itself is returned unchanged. -/
theorem calcScriptHash_none_mode (s : Script) (script : List parsedOpcode) (hashType : Nat)
    (hmode : hashType &&& 31 = 2) (hacp : hashType &&& 128 = 0)
    (hidx : s.txidx < s.tx.TxIn.length) :
    ∃ t, calcScriptHashFull s script hashType = (some t, s) ∧
      t.TxOut = [] ∧
      (∀ j ti, t.TxIn.get? j = some ti → j ≠ s.txidx →
        ti.Sequence = 0 ∧ ti.SignatureScript = []) ∧
      (∃ ti, t.TxIn.get? s.txidx = some ti ∧
        ti.SignatureScript = unparseScript (removeOpcode script 171)) := by
  refine ⟨{ s.tx with
              TxOut := []
            , TxIn := zeroOtherSeqFrom s.txidx 0
                (setInputScriptsFrom s.txidx (unparseScript (removeOpcode script 171)) 0
                  s.tx.TxIn) }, ?_, rfl, ?_, ?_⟩
  · unfold calcScriptHashFull calcScriptHashTx
    rw [hmode]
    simp [hacp]
  · intro j ti hget hne
    rw [zeroOtherSeqFrom_get?, setInputScriptsFrom_get?] at hget
    cases horig : s.tx.TxIn.get? j with
    | none => rw [horig] at hget; cases hget
    | some ti0 =>
      rw [horig] at hget
      simp only [Option.map_some', Option.some.injEq] at hget
      rw [if_pos (show 0 + j ≠ s.txidx from by omega)] at hget
      rw [if_neg (show ¬ (0 + j = s.txidx) from by omega)] at hget
      rw [← hget]
      exact ⟨rfl, rfl⟩
  · have horig : s.tx.TxIn.get? s.txidx = some (s.tx.TxIn.get ⟨s.txidx, hidx⟩) :=
      List.get?_eq_get hidx
    refine ⟨{ s.tx.TxIn.get ⟨s.txidx, hidx⟩ with
                SignatureScript := unparseScript (removeOpcode script 171) }, ?_, rfl⟩
    rw [zeroOtherSeqFrom_get?, setInputScriptsFrom_get?, horig]
    simp only [Option.map_some', Option.some.injEq]
    rw [if_neg (show ¬ (0 + s.txidx ≠ s.txidx) from by omega)]
    rw [if_pos (show 0 + s.txidx = s.txidx from by omega)]

/-- C8 witness: the None-mode theorem applied to a concrete engine whose
transaction has two inputs and one output, at input index 0 with
hashType 2. -/
theorem calcScriptHash_none_mode_witness :
    ∃ t, calcScriptHashFull sighashMachine [] 2 = (some t, sighashMachine) ∧
      t.TxOut = [] ∧
      (∀ j ti, t.TxIn.get? j = some ti → j ≠ sighashMachine.txidx →
        ti.Sequence = 0 ∧ ti.SignatureScript = []) ∧
      (∃ ti, t.TxIn.get? sighashMachine.txidx = some ti ∧
        ti.SignatureScript = unparseScript (removeOpcode [] 171)) :=
  calcScriptHash_none_mode sighashMachine [] 2 (by decide) (by decide) (by decide)

lemma scriptUInt8_eq (tail : List Nat) :
    scriptUInt8 tail =
      if tail.length ≤ 1 then .error .shortScript else .ok (leVal (tail.take 1)) := by
  rcases tail with _ | ⟨b0, _ | ⟨b1, t⟩⟩
  · rfl
  · rfl
  · rw [if_neg (by simp only [List.length_cons]; omega)]
    show Except.ok b0 = Except.ok (leVal [b0])
    simp only [leVal, Except.ok.injEq]
    omega

lemma scriptUInt16_eq (tail : List Nat) :
    scriptUInt16 tail =
      if tail.length ≤ 2 then .error .shortScript else .ok (leVal (tail.take 2)) := by
  rcases tail with _ | ⟨b0, _ | ⟨b1, _ | ⟨b2, t⟩⟩⟩
  · rfl
  · rfl
  · rfl
  · rw [if_neg (by simp only [List.length_cons]; omega)]
    show Except.ok (b1 * 256 + b0) = Except.ok (leVal [b0, b1])
    simp only [leVal, Except.ok.injEq]
    omega

lemma scriptUInt32_eq (tail : List Nat) :
    scriptUInt32 tail =
      if tail.length ≤ 4 then .error .shortScript else .ok (leVal (tail.take 4)) := by
  rcases tail with _ | ⟨b0, _ | ⟨b1, _ | ⟨b2, _ | ⟨b3, _ | ⟨b4, t⟩⟩⟩⟩⟩
  · rfl
  · rfl
  · rfl
  · rfl
  · rfl
  · rw [if_neg (by simp only [List.length_cons]; omega)]
    show Except.ok (b3 * 16777216 + b2 * 65536 + b1 * 256 + b0)
        = Except.ok (leVal [b0, b1, b2, b3])
    simp only [leVal, Except.ok.injEq]
    omega

lemma parseLoop_one (fuel instr : Nat) (rest : List Nat) (h1 : opLength instr = 1) :
    parseLoop (fuel + 1) (instr :: rest) =
      match parseLoop fuel rest with
      | .error e => .error e
      | .ok pops => .ok (⟨instr, []⟩ :: pops) := by
  simp only [parseLoop, h1]
  rw [if_pos trivial]

lemma parseLoop_fixed (fuel instr : Nat) (rest : List Nat) (h75 : 1 ≤ instr ∧ instr ≤ 75) :
    parseLoop (fuel + 1) (instr :: rest) =
      if ((1 + rest.length : Int) < (instr : Int) + 1) then .error .shortScript
      else
        match parseLoop fuel (rest.drop instr) with
        | .error e => .error e
        | .ok pops => .ok (⟨instr, rest.take instr⟩ :: pops) := by
  have hO : opLength instr = (instr : Int) + 1 := by
    unfold opLength; rw [if_pos h75]
  have hT : ((instr : Int) + 1).toNat - 1 = instr := by omega
  simp only [parseLoop, hO]
  rw [if_neg (by omega), if_pos (by omega), hT]

lemma parseLoop_raw76 (fuel : Nat) (rest : List Nat) :
    parseLoop (fuel + 1) (76 :: rest) =
      match scriptUInt8 rest with
      | .error e => .error e
      | .ok l =>
        if (rest.drop 1).length < l then .error .shortScript
        else if MaxScriptElementSize < l then .error .elementTooBig
        else
          match parseLoop fuel ((rest.drop 1).drop l) with
          | .error e => .error e
          | .ok pops => .ok (⟨76, (rest.drop 1).take l⟩ :: pops) := rfl

lemma parseLoop_raw77 (fuel : Nat) (rest : List Nat) :
    parseLoop (fuel + 1) (77 :: rest) =
      match scriptUInt16 rest with
      | .error e => .error e
      | .ok l =>
        if (rest.drop 2).length < l then .error .shortScript
        else if MaxScriptElementSize < l then .error .elementTooBig
        else
          match parseLoop fuel ((rest.drop 2).drop l) with
          | .error e => .error e
          | .ok pops => .ok (⟨77, (rest.drop 2).take l⟩ :: pops) := rfl

lemma parseLoop_raw78 (fuel : Nat) (rest : List Nat) :
    parseLoop (fuel + 1) (78 :: rest) =
      match scriptUInt32 rest with
      | .error e => .error e
      | .ok l =>
        if (rest.drop 4).length < l then .error .shortScript
        else if MaxScriptElementSize < l then .error .elementTooBig
        else
          match parseLoop fuel ((rest.drop 4).drop l) with
          | .error e => .error e
          | .ok pops => .ok (⟨78, (rest.drop 4).take l⟩ :: pops) := rfl

lemma parseLoop_pushdata (fuel b K : Nat) (rest : List Nat)
    (hbK : b = 76 ∧ K = 1 ∨ b = 77 ∧ K = 2 ∨ b = 78 ∧ K = 4) :
    parseLoop (fuel + 1) (b :: rest) =
      if rest.length ≤ K then .error .shortScript
      else if (rest.drop K).length < leVal (rest.take K) then .error .shortScript
      else if MaxScriptElementSize < leVal (rest.take K) then .error .elementTooBig
      else
        match parseLoop fuel ((rest.drop K).drop (leVal (rest.take K))) with
        | .error e => .error e
        | .ok pops => .ok (⟨b, (rest.drop K).take (leVal (rest.take K))⟩ :: pops) := by
  rcases hbK with ⟨hb, hK⟩ | ⟨hb, hK⟩ | ⟨hb, hK⟩ <;> subst hb <;> subst hK
  · rw [parseLoop_raw76, scriptUInt8_eq]
    by_cases hlen : rest.length ≤ 1
    · rw [if_pos hlen, if_pos hlen]
    · rw [if_neg hlen, if_neg hlen]
  · rw [parseLoop_raw77, scriptUInt16_eq]
    by_cases hlen : rest.length ≤ 2
    · rw [if_pos hlen, if_pos hlen]
    · rw [if_neg hlen, if_neg hlen]
  · rw [parseLoop_raw78, scriptUInt32_eq]
    by_cases hlen : rest.length ≤ 4
    · rw [if_pos hlen, if_pos hlen]
    · rw [if_neg hlen, if_neg hlen]

/-- C4 counterexample.  A script consisting of OP_PUSHDATA1 followed by
the single length byte 0x00 does not parse as a push of the empty
string: `scriptUInt8` demands a strictly longer tail, so `parseScript`
fails with ShortScript, contrary to the claim. -/
theorem pushdata1_lone_length_byte_shortscript :
    parseScript [76, 0] = .error .shortScript := by decide

/-- C4 amended.  For an opcode of encoded length -K (K in {1,2,4})
followed by `tail`: parsing fails with ShortScript when at most K bytes
remain after the opcode (fewer than K+2 including it — one more than the
claim stated, because the K-byte length reader rejects a tail of exactly
K bytes), or when the decoded length L exceeds the bytes remaining after
the length prefix; and when L equals the remaining byte count exactly
(and is within the element-size bound) the script parses as a single
push of those L bytes. -/
theorem parseScript_pushdata_bounds (b K : Nat) (tail : List Nat)
    (hK : opLength b = -(K : Int)) (_hKval : K = 1 ∨ K = 2 ∨ K = 4) :
    (tail.length ≤ K → parseScript (b :: tail) = .error .shortScript) ∧
    (K < tail.length → tail.length - K < leVal (tail.take K) →
      parseScript (b :: tail) = .error .shortScript) ∧
    (K < tail.length → leVal (tail.take K) = tail.length - K →
      leVal (tail.take K) ≤ MaxScriptElementSize →
      parseScript (b :: tail) = .ok [⟨b, tail.drop K⟩]) := by
  have hbK : b = 76 ∧ K = 1 ∨ b = 77 ∧ K = 2 ∨ b = 78 ∧ K = 4 := by
    unfold opLength at hK
    split_ifs at hK with h1 h2 h3 h4
    · exfalso; omega
    · exact Or.inl ⟨h2, by omega⟩
    · exact Or.inr (Or.inl ⟨h3, by omega⟩)
    · exact Or.inr (Or.inr ⟨h4, by omega⟩)
    · exfalso; omega
  have hps : parseScript (b :: tail) = parseLoop (tail.length + 1) (b :: tail) := by
    unfold parseScript
    simp
  rw [hps, parseLoop_pushdata tail.length b K tail hbK]
  refine ⟨?_, ?_, ?_⟩
  · intro h
    rw [if_pos h]
  · intro h1 h2
    rw [if_neg (by omega), if_pos (by simpa [List.length_drop] using h2)]
  · intro h1 h2 h3
    rw [if_neg (by omega)]
    rw [if_neg (by simp only [List.length_drop]; omega)]
    rw [if_neg (not_lt.2 h3)]
    have hempty : (tail.drop K).drop (leVal (tail.take K)) = [] := by
      have hz : ((tail.drop K).drop (leVal (tail.take K))).length = 0 := by
        simp only [List.length_drop]
        omega
      exact List.length_eq_zero.mp hz
    rw [hempty]
    have hnil : ∀ f : Nat, parseLoop f [] = .ok [] := fun f => by cases f <;> rfl
    rw [hnil]
    have htake : (tail.drop K).take (leVal (tail.take K)) = tail.drop K := by
      apply List.take_of_length_le
      simp only [List.length_drop]
      omega
    rw [htake]

/-- C4 witness: the bounds theorem applied to OP_PUSHDATA1 with length
byte 0x01 and one data byte, which parses as a single one-byte push. -/
theorem parseScript_pushdata_bounds_witness :
    parseScript [76, 1, 170] = .ok [⟨76, [170]⟩] :=
  (parseScript_pushdata_bounds 76 1 [1, 170] (by decide) (Or.inl rfl)).2.2
    (by decide) (by decide) (by decide)

lemma leBytes_leVal (bs : List Nat) (h : ∀ x ∈ bs, x < 256) :
    leBytes bs.length (leVal bs) = bs := by
  induction bs with
  | nil => rfl
  | cons b t ih =>
    have hb : b < 256 := h b (List.mem_cons_self b t)
    have h1 : (b + 256 * leVal t) % 256 = b := by omega
    have h2 : (b + 256 * leVal t) / 256 = leVal t := by omega
    simp only [List.length_cons, leBytes, leVal, h1, h2]
    rw [ih (fun x hx => h x (List.mem_cons_of_mem b hx))]

lemma roundtrip_pushdata_step (fuel b K : Nat) (rest : List Nat)
    (hbK : b = 76 ∧ K = 1 ∨ b = 77 ∧ K = 2 ∨ b = 78 ∧ K = 4)
    (hbytes : ∀ x ∈ rest, x < 256)
    (ih : ∀ S : List Nat, S.length ≤ fuel → (∀ x ∈ S, x < 256) →
      ∀ pops, parseLoop fuel S = .ok pops → unparseScript pops = S)
    (hlen : rest.length ≤ fuel)
    (pops : List parsedOpcode)
    (hp : parseLoop (fuel + 1) (b :: rest) = .ok pops) :
    unparseScript pops = b :: rest := by
  rw [parseLoop_pushdata fuel b K rest hbK] at hp
  by_cases hs1 : rest.length ≤ K
  · rw [if_pos hs1] at hp; simp at hp
  · rw [if_neg hs1] at hp
    by_cases hs2 : (rest.drop K).length < leVal (rest.take K)
    · rw [if_pos hs2] at hp; simp at hp
    · rw [if_neg hs2] at hp
      by_cases hs3 : MaxScriptElementSize < leVal (rest.take K)
      · rw [if_pos hs3] at hp; simp at hp
      · rw [if_neg hs3] at hp
        cases hrec : parseLoop fuel ((rest.drop K).drop (leVal (rest.take K))) with
        | error e => rw [hrec] at hp; simp at hp
        | ok pops' =>
          rw [hrec] at hp
          dsimp only at hp
          injection hp with h
          subst h
          have hdroplen : ((rest.drop K).drop (leVal (rest.take K))).length ≤ fuel := by
            simp only [List.length_drop]
            omega
          have ihrec := ih _ hdroplen
            (fun x hx => hbytes x (List.drop_subset _ _ (List.drop_subset _ _ hx)))
            pops' hrec
          simp only [unparseScript]
          rw [ihrec]
          simp only [List.length_drop] at hs2
          have hdata : ((rest.drop K).take (leVal (rest.take K))).length
              = leVal (rest.take K) := by
            simp only [List.length_take, List.length_drop]
            omega
          have hpb : popBytes ⟨b, (rest.drop K).take (leVal (rest.take K))⟩
              = b :: (leBytes K (leVal (rest.take K))
                  ++ (rest.drop K).take (leVal (rest.take K))) := by
            rcases hbK with ⟨hb, hK⟩ | ⟨hb, hK⟩ | ⟨hb, hK⟩
            · subst hb; subst hK
              rw [show ∀ d : List Nat, popBytes ⟨76, d⟩ = 76 :: (leBytes 1 d.length ++ d)
                from fun d => rfl, hdata]
            · subst hb; subst hK
              rw [show ∀ d : List Nat, popBytes ⟨77, d⟩ = 77 :: (leBytes 2 d.length ++ d)
                from fun d => rfl, hdata]
            · subst hb; subst hK
              rw [show ∀ d : List Nat, popBytes ⟨78, d⟩ = 78 :: (leBytes 4 d.length ++ d)
                from fun d => rfl, hdata]
          rw [hpb]
          have htklen : (rest.take K).length = K := by
            simp only [List.length_take]
            omega
          have hle : leBytes K (leVal (rest.take K)) = rest.take K := by
            have hh := leBytes_leVal (rest.take K)
              (fun x hx => hbytes x (List.take_subset _ _ hx))
            rw [htklen] at hh
            exact hh
          rw [hle]
          rw [List.cons_append, List.append_assoc, List.take_append_drop,
            List.take_append_drop]

lemma parseLoop_unparse : ∀ (fuel : Nat) (S : List Nat), S.length ≤ fuel →
    (∀ x ∈ S, x < 256) → ∀ pops, parseLoop fuel S = .ok pops →
    unparseScript pops = S := by
  intro fuel
  induction fuel with
  | zero =>
    intro S hlen _hb pops hp
    cases S with
    | nil =>
      rw [show parseLoop 0 ([] : List Nat) = .ok [] from rfl] at hp
      injection hp with h
      rw [← h]
      rfl
    | cons x t => simp at hlen
  | succ fuel ih =>
    intro S hlen hbytes pops hp
    cases S with
    | nil =>
      rw [show parseLoop (fuel + 1) ([] : List Nat) = .ok [] from rfl] at hp
      injection hp with h
      rw [← h]
      rfl
    | cons instr rest =>
      have hlen' : rest.length ≤ fuel := by
        simp only [List.length_cons] at hlen
        omega
      have hbrest : ∀ x ∈ rest, x < 256 := fun x hx => hbytes x (List.mem_cons_of_mem _ hx)
      have hcat : opLength instr = 1 ∨ (1 ≤ instr ∧ instr ≤ 75) ∨
          instr = 76 ∨ instr = 77 ∨ instr = 78 := by
        unfold opLength
        split_ifs with hA hB hC hD
        · exact Or.inr (Or.inl hA)
        · exact Or.inr (Or.inr (Or.inl hB))
        · exact Or.inr (Or.inr (Or.inr (Or.inl hC)))
        · exact Or.inr (Or.inr (Or.inr (Or.inr hD)))
        · exact Or.inl rfl
      rcases hcat with h1 | h75 | h76 | h77 | h78
      · rw [parseLoop_one fuel instr rest h1] at hp
        cases hrec : parseLoop fuel rest with
        | error e => rw [hrec] at hp; simp at hp
        | ok pops' =>
          rw [hrec] at hp
          dsimp only at hp
          injection hp with h
          subst h
          have ihrec := ih rest hlen' hbrest pops' hrec
          simp only [unparseScript]
          rw [ihrec]
          have hpb : popBytes ⟨instr, []⟩ = [instr] := by
            simp only [popBytes, h1]
            rw [if_pos trivial]
          rw [hpb]
          rfl
      · rw [parseLoop_fixed fuel instr rest h75] at hp
        by_cases hsh : ((1 + rest.length : Int) < (instr : Int) + 1)
        · rw [if_pos hsh] at hp; simp at hp
        · rw [if_neg hsh] at hp
          have hle : instr ≤ rest.length := by omega
          cases hrec : parseLoop fuel (rest.drop instr) with
          | error e => rw [hrec] at hp; simp at hp
          | ok pops' =>
            rw [hrec] at hp
            dsimp only at hp
            injection hp with h
            subst h
            have ihrec := ih (rest.drop instr)
              (by simp only [List.length_drop]; omega)
              (fun x hx => hbrest x (List.drop_subset _ _ hx)) pops' hrec
            simp only [unparseScript]
            rw [ihrec]
            have hO : opLength instr = (instr : Int) + 1 := by
              unfold opLength; rw [if_pos h75]
            have hpb : popBytes ⟨instr, rest.take instr⟩ = instr :: rest.take instr := by
              simp only [popBytes, hO]
              rw [if_neg (by omega), if_pos (by omega)]
            rw [hpb]
            rw [List.cons_append, List.take_append_drop]
      · subst h76
        exact roundtrip_pushdata_step fuel 76 1 rest (Or.inl ⟨rfl, rfl⟩) hbrest ih hlen' pops hp
      · subst h77
        exact roundtrip_pushdata_step fuel 77 2 rest (Or.inr (Or.inl ⟨rfl, rfl⟩)) hbrest ih
          hlen' pops hp
      · subst h78
        exact roundtrip_pushdata_step fuel 78 4 rest (Or.inr (Or.inr ⟨rfl, rfl⟩)) hbrest ih
          hlen' pops hp

/-- C5.  Parse and unparse round-trip: for every byte string that
`parseScript` accepts, `unparseScript` of the resulting parsed-opcode
sequence reproduces the byte string exactly. -/
theorem parse_unparse_roundtrip (S : List Nat) (hbytes : ∀ x ∈ S, x < 256)
    (pops : List parsedOpcode) (hparse : parseScript S = .ok pops) :
    unparseScript pops = S := by
  unfold parseScript at hparse
  exact parseLoop_unparse S.length S le_rfl hbytes pops hparse

/-- C5 witness: the round-trip theorem applied to the script `51 4c 01
aa` (OP_1 followed by a PUSHDATA1 of one byte). -/
theorem parse_unparse_roundtrip_witness :
    unparseScript [⟨81, []⟩, ⟨76, [170]⟩] = [81, 76, 1, 170] :=
  parse_unparse_roundtrip [81, 76, 1, 170] (by decide) [⟨81, []⟩, ⟨76, [170]⟩] (by decide)

end BtcScript
